import Mathlib

/-!
Shallow embedding of the virtualized row engine and asynchronous sort engine
of the cardinal repository (src/cardinal/src/App.tsx and
src/cardinal/src/components/VirtualList.jsx), together with theorems checking
the stated properties of its specification.

JavaScript numbers appearing in scroll geometry are modelled as rationals
(ℚ); integer counters and indices are modelled as Nat/Int. Asynchronous
code is modelled by explicit state passing: each async operation is split
into its synchronous segments (start / resolve), which matches the
single-threaded event-loop semantics of the source.
-/

namespace Cardinal

/-! ## Data model (App.tsx) -/

/-- Sort keys, from `type SortKey` used in App.tsx. -/
inductive SortKey
  | fullPath
  | size
  | mtime
  | ctime
deriving DecidableEq, Repr

/-- Sort directions. -/
inductive SortDir
  | asc
  | desc
deriving DecidableEq, Repr

/-- A non-null `SortState` value; the full `SortState` is `Option SortStateV`. -/
structure SortStateV where
  key : SortKey
  direction : SortDir
deriving DecidableEq, Repr

/-- `SortableMetadata` from App.tsx: path plus optional numeric fields
(`null` modelled as `none`). -/
structure SortableMetadata where
  path : String
  size : Option Int
  mtime : Option Int
  ctime : Option Int
deriving DecidableEq, Repr

/-- `SortEntry` from App.tsx: a slab index paired with its original position. -/
structure SortEntry where
  slabIndex : Nat
  idx : Nat
deriving DecidableEq, Repr

/-- `SORTABLE_RESULT_THRESHOLD` constant from App.tsx. -/
def SORTABLE_RESULT_THRESHOLD : Nat := 1000

/-- JavaScript `Number.MIN_SAFE_INTEGER`. -/
def MIN_SAFE_INTEGER : Int := -(2 ^ 53 - 1)

/-- `normalizePath` from App.tsx: `value ? value.toLocaleLowerCase() : ''`.
An absent or empty string (both falsy) map to the empty string;
`toLocaleLowerCase` is modelled by `String.toLower`. -/
def normalizePath (value : Option String) : String :=
  match value with
  | some s => if s = "" then "" else s.toLower
  | none => ""

/-- Modelled host primitive: `String.prototype.localeCompare` with sensitivity
set to base, applied to strings already lower-cased by `normalizePath`. The
locale collation is modelled as the sign of code-point lexicographic
comparison (a linear order on strings, which is all the theorems use). -/
def localeCompareBase (a b : String) : Int :=
  if a < b then -1 else if b < a then 1 else 0

/-- `numericValue` from App.tsx: the numeric sort field of a metadata record,
with a missing record or missing field mapped to `MIN_SAFE_INTEGER`. -/
def numericValue (metadata : Option SortableMetadata) (key : SortKey) : Int :=
  match key with
  | .size => (metadata.bind SortableMetadata.size).getD MIN_SAFE_INTEGER
  | .mtime => (metadata.bind SortableMetadata.mtime).getD MIN_SAFE_INTEGER
  | .ctime => (metadata.bind SortableMetadata.ctime).getD MIN_SAFE_INTEGER
  | .fullPath => MIN_SAFE_INTEGER

/-- Numeric value of a sort direction as used in `compareEntries`. -/
def dirSign : SortDir → Int
  | .asc => 1
  | .desc => -1

/-- `compareEntries` from App.tsx. The metadata map is modelled as a
function from slab index to an optional record. -/
def compareEntries (a b : SortEntry) (sortState : SortStateV)
    (metadataMap : Nat → Option SortableMetadata) : Int :=
  let direction := dirSign sortState.direction
  let metaA := metadataMap a.slabIndex
  let metaB := metadataMap b.slabIndex
  match sortState.key with
  | .fullPath =>
    let comparison := localeCompareBase (normalizePath (metaA.map SortableMetadata.path))
      (normalizePath (metaB.map SortableMetadata.path))
    if comparison ≠ 0 then comparison * direction
    else (a.idx : Int) - (b.idx : Int)
  | k =>
    let diff := numericValue metaA k - numericValue metaB k
    if diff ≠ 0 then (if diff > 0 then direction else -direction)
    else (a.idx : Int) - (b.idx : Int)

/-- The ordering relation induced by the sort comparator: entry `a` may
precede `b` when the comparator is nonpositive (the contract of a
JavaScript sort comparator). -/
def entryRel (sortState : SortStateV) (metadataMap : Nat → Option SortableMetadata)
    (a b : SortEntry) : Prop :=
  compareEntries a b sortState metadataMap ≤ 0

instance entryRelDecidable (sortState : SortStateV)
    (metadataMap : Nat → Option SortableMetadata) :
    DecidableRel (entryRel sortState metadataMap) := fun a b =>
  inferInstanceAs (Decidable (compareEntries a b sortState metadataMap ≤ 0))

/-- The `sourceResults.map((slabIndex, idx) => ({slabIndex, idx}))` step of
`runSort` in App.tsx. -/
def toEntries (source : List Nat) : List SortEntry :=
  source.enum.map (fun p => ⟨p.2, p.1⟩)

/-- The sorted entry list built by `runSort` in App.tsx. The JavaScript
`Array.prototype.sort` (stable, and order-correct for a consistent
comparator) is modelled by a sort on the same comparator relation;
`compareEntries` is a strict total order on entries with distinct original
positions (and all entries of one call have distinct original positions),
so the sorted permutation is unique and the choice of sorting algorithm is
immaterial. -/
def sortedEntries (sortState : SortStateV) (metadataMap : Nat → Option SortableMetadata)
    (source : List Nat) : List SortEntry :=
  (toEntries source).insertionSort (entryRel sortState metadataMap)

/-- The committed sequence of `runSort`:
`ordered.map((entry) => entry.slabIndex)`. -/
def runSortOrder (sortState : SortStateV) (metadataMap : Nat → Option SortableMetadata)
    (source : List Nat) : List Nat :=
  (sortedEntries sortState metadataMap source).map SortEntry.slabIndex

/-! ## Sort engine token state machine (App.tsx, runSort) -/

/-- The token-relevant state of the sort engine: `sortRequestRef.current`
and the committed `sortedResults`. -/
structure SortEngineState where
  token : Nat
  displayed : List Nat
deriving DecidableEq, Repr

/-- Start of a sort attempt in `runSort`:
`requestId = sortRequestRef.current + 1; sortRequestRef.current = requestId`.
Returns the captured request id together with the updated state. -/
def startSort (st : SortEngineState) : Nat × SortEngineState :=
  (st.token + 1, { st with token := st.token + 1 })

/-- Resolution of a successful sort attempt in `runSort`: after the metadata
fetch resolves, the attempt checks
`sortRequestRef.current === requestId` and only then commits the sorted
sequence via `setSortedResults`. Both checks in the source are separated
only by synchronous code, so they are modelled as one atomic step. -/
def resolveSortSuccess (st : SortEngineState) (requestId : Nat) (sortState : SortStateV)
    (metadataMap : Nat → Option SortableMetadata) (source : List Nat) : SortEngineState :=
  if st.token = requestId then
    { st with displayed := runSortOrder sortState metadataMap source }
  else st

/-- Resolution of a failed sort attempt: the catch branch of `runSort`
commits the unsorted `sourceResults` only when
`sortRequestRef.current === requestId`. -/
def resolveSortFailure (st : SortEngineState) (requestId : Nat) (source : List Nat) :
    SortEngineState :=
  if st.token = requestId then { st with displayed := source } else st

/-! ## App-level sort view state (App.tsx) -/

/-- The sort-relevant screen state of App.tsx: the raw backend results,
the stored sort state, and the committed sorted results. -/
structure AppSortView where
  results : List Nat
  sortState : Option SortStateV
  sortedResults : List Nat
deriving DecidableEq, Repr

/-- `totalResults = resultCount || results.length`; the backend result count
equals the length of the delivered result sequence. -/
def totalResults (st : AppSortView) : Nat := st.results.length

/-- `canSort = totalResults <= SORTABLE_RESULT_THRESHOLD` from App.tsx. -/
def canSortApp (st : AppSortView) : Bool :=
  totalResults st ≤ SORTABLE_RESULT_THRESHOLD

/-- `shouldUseSortedResults = Boolean(sortState && canSort)` from App.tsx. -/
def shouldUseSortedResults (st : AppSortView) : Bool :=
  st.sortState.isSome && canSortApp st

/-- `displayedResults = shouldUseSortedResults ? sortedResults : results`. -/
def displayedResults (st : AppSortView) : List Nat :=
  if shouldUseSortedResults st then st.sortedResults else st.results

/-- Effect of a new backend result delivery (the effect on `[results]` in
App.tsx): the metadata cache is cleared and `setSortedResults(results)` runs;
`sortState` is not written by any results-change path. -/
def onResultsChange (st : AppSortView) (newResults : List Nat) : AppSortView :=
  { results := newResults, sortState := st.sortState, sortedResults := newResults }

/-- The state updater inside `handleSortToggle` from App.tsx, with the
`if (!canSort) return;` guard modelled as returning the previous state
unchanged. -/
def handleSortToggle (canSortNow : Bool) (prev : Option SortStateV) (nextKey : SortKey) :
    Option SortStateV :=
  if !canSortNow then prev
  else
    match prev with
    | none => some ⟨nextKey, .asc⟩
    | some p =>
      if p.key ≠ nextKey then some ⟨nextKey, .asc⟩
      else if p.direction = .asc then some ⟨nextKey, .desc⟩
      else none

/-! ## Range calculator (VirtualList.jsx, computeRange) -/

/-- The `{start, end}` range object of VirtualList.jsx. -/
structure VisibleRange where
  start : Int
  «end» : Int
deriving DecidableEq, Repr

/-- `computeRange` from VirtualList.jsx. Scroll offsets and heights are
JavaScript numbers, modelled as rationals; the row count and overscan are
integers. The falsy checks `!rowCount` and `!vh` are equality with zero. -/
def computeRange (rowCount : Nat) (rowHeight : ℚ) (overscan : Nat)
    (currentScrollTop vh : ℚ) : VisibleRange :=
  if rowCount = 0 ∨ vh = 0 then ⟨0, -1⟩
  else
    let startIndex : Int := ⌊currentScrollTop / rowHeight⌋
    let endIndex : Int := startIndex + ⌈vh / rowHeight⌉ - 1
    ⟨max 0 (startIndex - overscan), min ((rowCount : Int) - 1) (endIndex + overscan)⟩

/-- Clamp as written in the range-calculator contract of the spec. -/
def specClamp (v lo hi : Int) : Int := max lo (min v hi)

/-- Modelled from the spec: the Range Calculator contract of section 4.1,
`start = clamp(floor(scrollOffset/rowHeight) - overscan, 0, rowCount-1)` and
`end = clamp(floor(scrollOffset/rowHeight) + ceil(viewportHeight/rowHeight)
- 1 + overscan, 0, rowCount-1)`, written for comparison against
`computeRange`. -/
def specRange (rowCount : Nat) (rowHeight : ℚ) (overscan : Nat)
    (scrollOffset vh : ℚ) : VisibleRange :=
  let f : Int := ⌊scrollOffset / rowHeight⌋
  let c : Int := ⌈vh / rowHeight⌉
  ⟨specClamp (f - overscan) 0 ((rowCount : Int) - 1),
   specClamp (f + c - 1 + overscan) 0 ((rowCount : Int) - 1)⟩

/-! ## Scroll offset updates (VirtualList.jsx) -/

/-- `maxScrollTop = Math.max(0, rowCount * rowHeight - viewportHeight)`
from VirtualList.jsx. -/
def maxScrollTop (rowCount : Nat) (rowHeight vh : ℚ) : ℚ :=
  max 0 ((rowCount : ℚ) * rowHeight - vh)

/-- The clamping step of `updateScrollAndRange` from VirtualList.jsx:
`clamped = Math.max(0, Math.min(nextScrollTop, maxScrollTop))`. -/
def updateScroll (mst nextScrollTop : ℚ) : ℚ :=
  max 0 (min nextScrollTop mst)

/-- Wheel input: `updateScrollAndRange(scrollTop + e.deltaY)`. -/
def wheelScroll (mst current deltaY : ℚ) : ℚ :=
  updateScroll mst (current + deltaY)

/-- Scrollbar thumb drag from `handleThumbMouseDown`: the candidate thumb
position is clamped to the track, converted to a fraction of the maximal
thumb travel, and scaled by `maxScrollTop` before entering
`updateScrollAndRange`. -/
def thumbDragScroll (mst trackHeight thumbHeight mousePositionInTrack : ℚ) : ℚ :=
  let maxThumbTop := trackHeight - thumbHeight
  let clampedThumbTop := max 0 (min mousePositionInTrack maxThumbTop)
  let scrollFrac := if maxThumbTop > 0 then clampedThumbTop / maxThumbTop else 0
  updateScroll mst (scrollFrac * mst)

/-- Track click from `handleTrackClick`: the click fraction of the track
height scaled by `maxScrollTop`, fed into `updateScrollAndRange`. -/
def trackClickScroll (mst trackHeight clickY : ℚ) : ℚ :=
  updateScroll mst ((clickY / trackHeight) * mst)

/-- `scrollToTop: () => updateScrollAndRange(0)` from the imperative handle. -/
def scrollToTopScroll (mst : ℚ) : ℚ :=
  updateScroll mst 0

/-- Alignment argument of `scrollToIndex`. -/
inductive ScrollAlign
  | alignStart
  | alignCenter
  | alignEnd
deriving DecidableEq, Repr

/-- `scrollToIndex` from the imperative handle of VirtualList.jsx: an
out-of-range index performs no update; otherwise the aligned target offset
enters `updateScrollAndRange`. The index is a natural number, so the
`index < 0` guard of the source is vacuous. -/
def scrollToIndex (rowCount : Nat) (rowHeight vh current : ℚ) (index : Nat)
    (align : ScrollAlign) : ℚ :=
  if index ≥ rowCount then current
  else
    let targetTop : ℚ := (index : ℚ) * rowHeight
    let next :=
      match align with
      | .alignStart => targetTop
      | .alignCenter => targetTop - (vh - rowHeight) / 2
      | .alignEnd => targetTop - (vh - rowHeight)
    updateScroll (maxScrollTop rowCount rowHeight vh) next

/-- The invariant claimed for every stored scroll offset. -/
def scrollInBounds (rowCount : Nat) (rowHeight vh x : ℚ) : Prop :=
  0 ≤ x ∧ x ≤ maxScrollTop rowCount rowHeight vh

/-! ## Row cache and batch loader (VirtualList.jsx, ensureRangeLoaded) -/

/-- The cache and in-flight state of VirtualList.jsx: `cache` is the
`Map` from row index to fetched record (the stored value is itself optional
because `fetched[idx]` may be undefined when a response is short), and
`loading` is the `loadingRef` set, modelled as a list with membership. -/
structure LoadState (μ : Type) where
  cache : Nat → Option (Option μ)
  loading : List Nat

/-- The inclusive integer range `[a, b]` iterated by the loader loop. -/
def rangeList (a b : Nat) : List Nat := List.range' a (b + 1 - a)

/-- The `needLoading` list collected by `ensureRangeLoaded`: indices of the
range neither cached nor marked in flight. The loop marks each collected
index in flight as it goes; the range has no duplicate indices, so
collecting against the initial state is equivalent. -/
def missingIndices {μ : Type} (s : LoadState μ) (a b : Nat) : List Nat :=
  (rangeList a b).filter (fun i => (s.cache i).isNone && !(s.loading.contains i))

/-- The synchronous head of `ensureRangeLoaded`: the guard
`if (!results || start < 0 || end < start || rowCount === 0) return`
followed by collecting `needLoading` and marking those indices in flight.
Returns the issued fetch request list together with the updated state
(an empty list means no fetch call is issued). -/
def ensureStart {μ : Type} (rowCount : Nat) (s : LoadState μ) (a b : Nat) :
    List Nat × LoadState μ :=
  if rowCount = 0 ∨ b < a then ([], s)
  else
    let need := missingIndices s a b
    (need, { s with loading := s.loading ++ need })

/-- The cache write loop of the success branch:
`needLoading.forEach((originalIndex, idx) => newCache.set(originalIndex,
fetched[idx]))`, with the positional response value `fetched[idx]`
modelled as the optional head after `idx` tail steps. -/
def writeBatch {μ : Type} :
    (Nat → Option (Option μ)) → List Nat → List μ → (Nat → Option (Option μ))
  | cache, [], _ => cache
  | cache, i :: rest, fetched =>
    writeBatch (Function.update cache i (some fetched.head?)) rest fetched.tail

/-- Removal of a batch from the in-flight set
(`loadingRef.current.delete(originalIndex)` for each batch index). -/
def clearLoading (loading : List Nat) (batch : List Nat) : List Nat :=
  loading.filter (fun i => !(batch.contains i))

/-- The success branch of `ensureRangeLoaded`: each response record is
written into the cache keyed by the batch index at the same position, and
the batch leaves the in-flight set. -/
def batchSuccess {μ : Type} (s : LoadState μ) (batch : List Nat) (fetched : List μ) :
    LoadState μ :=
  { cache := writeBatch s.cache batch fetched,
    loading := clearLoading s.loading batch }

/-- The catch branch of `ensureRangeLoaded`: the batch leaves the in-flight
set and the cache is untouched. -/
def batchFailure {μ : Type} (s : LoadState μ) (batch : List Nat) : LoadState μ :=
  { s with loading := clearLoading s.loading batch }

/-- One event of the loader history: an `ensureRangeLoaded` call, a
successful batch completion, or a failed batch completion. -/
inductive LoadEvent (μ : Type)
  | ensure (a b : Nat)
  | complete (batch : List Nat) (fetched : List μ)
  | fail (batch : List Nat)
deriving Repr

/-- Whether an event is a failed batch completion. -/
def LoadEvent.isFail {μ : Type} : LoadEvent μ → Bool
  | .fail _ => true
  | _ => false

/-- Run a history of loader events, returning the final state and the list
of issued fetch request lists, in order. -/
def runEvents {μ : Type} (rowCount : Nat) :
    LoadState μ → List (LoadEvent μ) → LoadState μ × List (List Nat)
  | s, [] => (s, [])
  | s, .ensure a b :: es =>
    let r := ensureStart rowCount s a b
    let rest := runEvents rowCount r.2 es
    (rest.1, r.1 :: rest.2)
  | s, .complete batch fetched :: es =>
    runEvents rowCount (batchSuccess s batch fetched) es
  | s, .fail batch :: es =>
    runEvents rowCount (batchFailure s batch) es

/-! ## Derived views of the comparator, used to state its order laws -/

/-- The normalized path string the comparator reads for an entry. -/
def primStr (metadataMap : Nat → Option SortableMetadata) (e : SortEntry) : String :=
  normalizePath ((metadataMap e.slabIndex).map SortableMetadata.path)

/-- The numeric sort value the comparator reads for an entry. -/
def primNum (metadataMap : Nat → Option SortableMetadata) (key : SortKey) (e : SortEntry) :
    Int :=
  numericValue (metadataMap e.slabIndex) key

/-- Lexicographic order on a primary projection with the original position
as ascending tie-break. -/
def lexRel {σ : Type} [LT σ] (κ : SortEntry → σ) (a b : SortEntry) : Prop :=
  κ a < κ b ∨ (κ a = κ b ∧ a.idx ≤ b.idx)

/-- Metadata map of concrete scenario B of the spec: three cached records
with sizes 10, null and 30 at slab indices 0, 1 and 2. -/
def scenarioBMetadata : Nat → Option SortableMetadata := fun i =>
  if i = 0 then some ⟨"a", some 10, none, none⟩
  else if i = 1 then some ⟨"b", none, none, none⟩
  else if i = 2 then some ⟨"c", some 30, none, none⟩
  else none

/-! ## Helper lemmas about the comparator -/

theorem lexRel_total {σ : Type} [LinearOrder σ] (κ : SortEntry → σ) (a b : SortEntry) :
    lexRel κ a b ∨ lexRel κ b a := by
  rcases lt_trichotomy (κ a) (κ b) with h | h | h
  · exact Or.inl (Or.inl h)
  · rcases Nat.le_total a.idx b.idx with hi | hi
    · exact Or.inl (Or.inr ⟨h, hi⟩)
    · exact Or.inr (Or.inr ⟨h.symm, hi⟩)
  · exact Or.inr (Or.inl h)

theorem lexRel_trans {σ : Type} [LinearOrder σ] (κ : SortEntry → σ) (a b c : SortEntry)
    (hab : lexRel κ a b) (hbc : lexRel κ b c) : lexRel κ a c := by
  rcases hab with h1 | ⟨h1, i1⟩ <;> rcases hbc with h2 | ⟨h2, i2⟩
  · exact Or.inl (lt_trans h1 h2)
  · exact Or.inl (h2 ▸ h1)
  · exact Or.inl (h1 ▸ h2)
  · exact Or.inr ⟨h1.trans h2, le_trans i1 i2⟩

theorem localeCompareBase_eq_zero_iff (a b : String) :
    localeCompareBase a b = 0 ↔ a = b := by
  unfold localeCompareBase
  rcases lt_trichotomy a b with h | h | h
  · simp [h, h.ne]
  · simp [h, lt_irrefl]
  · simp [h, not_lt_of_lt h, (ne_of_lt h).symm]

theorem localeCompareBase_neg_iff (a b : String) :
    localeCompareBase a b < 0 ↔ a < b := by
  unfold localeCompareBase
  rcases lt_trichotomy a b with h | h | h
  · simp [h]
  · simp [h, lt_irrefl]
  · simp [h, not_lt_of_lt h]

theorem localeCompareBase_pos_iff (a b : String) :
    0 < localeCompareBase a b ↔ b < a := by
  unfold localeCompareBase
  rcases lt_trichotomy a b with h | h | h
  · simp [h, not_lt_of_lt h]
  · simp [h, lt_irrefl]
  · simp [h, not_lt_of_lt h]

theorem compareEntries_fullPath_le_iff (a b : SortEntry)
    (m : Nat → Option SortableMetadata) (d : SortDir) :
    (compareEntries a b ⟨.fullPath, d⟩ m ≤ 0 ↔
      (match d with
       | .asc => lexRel (fun e => primStr m e) a b
       | .desc => lexRel (fun e => OrderDual.toDual (primStr m e)) a b)) := by
  have hz := localeCompareBase_eq_zero_iff (primStr m a) (primStr m b)
  have hn := localeCompareBase_neg_iff (primStr m a) (primStr m b)
  have hp := localeCompareBase_pos_iff (primStr m a) (primStr m b)
  cases d <;>
    simp only [compareEntries, dirSign, primStr, lexRel] at *
  · rw [mul_one]
    constructor
    · intro h
      split at h
      · exact Or.inl (hn.mp (lt_of_le_of_ne h (by assumption)))
      · refine Or.inr ⟨hz.mp (by omega), by omega⟩
    · rintro (h | ⟨h1, h2⟩)
      · have := hn.mpr h
        split <;> omega
      · have := hz.mpr h1
        split <;> omega
  · constructor
    · intro h
      split at h
      · refine Or.inl ?_
        show primStr m b < primStr m a
        simp only [primStr]
        rw [mul_neg_one] at h
        exact hp.mp (by omega)
      · refine Or.inr ⟨?_, by omega⟩
        show OrderDual.toDual (primStr m a) = OrderDual.toDual (primStr m b)
        simp only [OrderDual.toDual_inj, primStr]
        exact hz.mp (by omega)
    · rintro (h | ⟨h1, h2⟩)
      · have hba : primStr m b < primStr m a := h
        simp only [primStr] at hba
        have := hp.mpr hba
        rw [mul_neg_one]
        split <;> omega
      · have h1' : primStr m a = primStr m b := OrderDual.toDual_inj.mp h1
        simp only [primStr] at h1'
        have := hz.mpr h1'
        rw [mul_neg_one]
        split <;> omega

theorem compareEntries_num_le_iff (a b : SortEntry) (m : Nat → Option SortableMetadata)
    (k : SortKey) (hk : k ≠ .fullPath) (d : SortDir) :
    (compareEntries a b ⟨k, d⟩ m ≤ 0 ↔
      (match d with
       | .asc => lexRel (fun e => primNum m k e) a b
       | .desc => lexRel (fun e => OrderDual.toDual (primNum m k e)) a b)) := by
  cases k <;> try exact absurd rfl hk
  all_goals
    cases d <;>
      simp only [compareEntries, dirSign, primNum, lexRel, OrderDual.toDual_lt_toDual,
        OrderDual.toDual_inj] <;>
      split_ifs <;> omega

/-- The comparator relation is total. -/
theorem entryRel_total (s : SortStateV) (m : Nat → Option SortableMetadata)
    (a b : SortEntry) : entryRel s m a b ∨ entryRel s m b a := by
  obtain ⟨k, d⟩ := s
  unfold entryRel
  cases hk : decide (k = SortKey.fullPath) with
  | true =>
    have hk' : k = SortKey.fullPath := of_decide_eq_true hk
    subst hk'
    rw [compareEntries_fullPath_le_iff, compareEntries_fullPath_le_iff]
    cases d
    · exact lexRel_total _ a b
    · exact lexRel_total _ a b
  | false =>
    have hk' : k ≠ SortKey.fullPath := of_decide_eq_false hk
    rw [compareEntries_num_le_iff a b m k hk', compareEntries_num_le_iff b a m k hk']
    cases d
    · exact lexRel_total _ a b
    · exact lexRel_total _ a b

/-- The comparator relation is transitive. -/
theorem entryRel_trans (s : SortStateV) (m : Nat → Option SortableMetadata)
    (a b c : SortEntry) (hab : entryRel s m a b) (hbc : entryRel s m b c) :
    entryRel s m a c := by
  obtain ⟨k, d⟩ := s
  unfold entryRel at *
  cases hk : decide (k = SortKey.fullPath) with
  | true =>
    have hk' : k = SortKey.fullPath := of_decide_eq_true hk
    subst hk'
    rw [compareEntries_fullPath_le_iff] at *
    cases d
    · exact lexRel_trans _ a b c hab hbc
    · exact lexRel_trans _ a b c hab hbc
  | false =>
    have hk' : k ≠ SortKey.fullPath := of_decide_eq_false hk
    rw [compareEntries_num_le_iff _ _ m k hk'] at *
    cases d
    · exact lexRel_trans _ a b c hab hbc
    · exact lexRel_trans _ a b c hab hbc

theorem toEntries_map_slabIndex (src : List Nat) :
    (toEntries src).map SortEntry.slabIndex = src := by
  unfold toEntries
  rw [List.map_map]
  exact List.enum_map_snd src

theorem runSortOrder_perm (s : SortStateV) (m : Nat → Option SortableMetadata)
    (src : List Nat) : (runSortOrder s m src).Perm src := by
  unfold runSortOrder sortedEntries
  have h := (List.perm_insertionSort (entryRel s m) (toEntries src)).map
    SortEntry.slabIndex
  rwa [toEntries_map_slabIndex] at h

theorem sortedEntries_pairwise (s : SortStateV) (m : Nat → Option SortableMetadata)
    (src : List Nat) :
    List.Pairwise (fun a b => compareEntries a b s m ≤ 0) (sortedEntries s m src) := by
  unfold sortedEntries
  haveI : IsTotal SortEntry (entryRel s m) := ⟨entryRel_total s m⟩
  haveI : IsTrans SortEntry (entryRel s m) := ⟨entryRel_trans s m⟩
  exact List.sorted_insertionSort (entryRel s m) (toEntries src)

theorem compareEntries_eq_zero_idx (a b : SortEntry) (s : SortStateV)
    (m : Nat → Option SortableMetadata) (h : compareEntries a b s m = 0) :
    a.idx = b.idx := by
  obtain ⟨k, d⟩ := s
  cases k <;> cases d <;>
    simp only [compareEntries, dirSign, mul_one, mul_neg_one] at h <;>
    split_ifs at h <;> omega

theorem compareEntries_desc_neg (a b : SortEntry) (k : SortKey)
    (m : Nat → Option SortableMetadata) :
    (compareEntries a b ⟨k, .asc⟩ m = (a.idx : Int) - (b.idx : Int) ∧
      compareEntries a b ⟨k, .desc⟩ m = (a.idx : Int) - (b.idx : Int)) ∨
    compareEntries a b ⟨k, .desc⟩ m = -compareEntries a b ⟨k, .asc⟩ m := by
  cases k <;>
    simp only [compareEntries, dirSign, mul_one, mul_neg_one] <;>
    split_ifs <;> omega

theorem resolveSortSuccess_stale (st : SortEngineState) (r : Nat) (s : SortStateV)
    (m : Nat → Option SortableMetadata) (src : List Nat) (h : st.token ≠ r) :
    resolveSortSuccess st r s m src = st := by
  rw [resolveSortSuccess, if_neg h]

theorem resolveSortSuccess_token (st : SortEngineState) (r : Nat) (s : SortStateV)
    (m : Nat → Option SortableMetadata) (src : List Nat) :
    (resolveSortSuccess st r s m src).token = st.token := by
  rw [resolveSortSuccess]
  split <;> rfl

theorem startSort_token (st : SortEngineState) :
    (startSort st).2.token = st.token + 1 ∧ (startSort st).1 = st.token + 1 :=
  ⟨rfl, rfl⟩

/-! ## Claim theorems -/

/-- C2: Sort correctness. For every non-null sort state and every metadata
map, the committed sequence is a permutation of the source sequence and the
entry sequence is ordered by the declared comparator; a missing numeric
value is treated as the minimum sentinel; the comparator ties only at equal
original position (so order-by-comparator forces the stable tie-break); the
desc direction either negates the asc comparison (primary decided) or
agrees with it on the ascending positional tie-break (tie-break never
reversed); and in scenario B, sizes 10, null, 30 at positions 0, 1, 2 under
key size, direction desc, commit the order 2, 0, 1. -/
theorem c2_sort_correctness :
    (∀ (s : SortStateV) (m : Nat → Option SortableMetadata) (src : List Nat),
      (runSortOrder s m src).Perm src ∧
        List.Pairwise (fun a b => compareEntries a b s m ≤ 0) (sortedEntries s m src)) ∧
    (∀ k : SortKey, numericValue none k = MIN_SAFE_INTEGER) ∧
    (∀ (a b : SortEntry) (s : SortStateV) (m : Nat → Option SortableMetadata),
      compareEntries a b s m = 0 → a.idx = b.idx) ∧
    (∀ (a b : SortEntry) (k : SortKey) (m : Nat → Option SortableMetadata),
      (compareEntries a b ⟨k, .asc⟩ m = (a.idx : Int) - (b.idx : Int) ∧
        compareEntries a b ⟨k, .desc⟩ m = (a.idx : Int) - (b.idx : Int)) ∨
      compareEntries a b ⟨k, .desc⟩ m = -compareEntries a b ⟨k, .asc⟩ m) ∧
    runSortOrder ⟨.size, .desc⟩ scenarioBMetadata [0, 1, 2] = [2, 0, 1] := by
  refine ⟨fun s m src => ⟨runSortOrder_perm s m src, sortedEntries_pairwise s m src⟩,
    fun k => by cases k <;> rfl,
    compareEntries_eq_zero_idx,
    fun a b k m => compareEntries_desc_neg a b k m,
    by decide⟩

/-- Witness for C2 at concrete inputs: the scenario B evaluation, and the
tie implication at two entries with equal original position. -/
theorem c2_sort_correctness_witness :
    runSortOrder ⟨.size, .desc⟩ scenarioBMetadata [0, 1, 2] = [2, 0, 1] ∧
      (⟨0, 7⟩ : SortEntry).idx = (⟨1, 7⟩ : SortEntry).idx :=
  ⟨c2_sort_correctness.2.2.2.2,
    c2_sort_correctness.2.2.1 ⟨0, 7⟩ ⟨1, 7⟩ ⟨.size, .asc⟩ (fun _ => none) (by decide)⟩

/-- C1: Sort cancellation. Starting a second sort attempt increments the
token past the one the first attempt captured, so when the first attempt
resolves — whether before or after the second attempt resolves — its token
check fails and the state is unchanged; the second attempt matches the
current token and commits its sorted sequence; in general a resolution
whose captured token differs from the current token changes nothing. -/
theorem c1_sort_cancellation :
    ∀ (st : SortEngineState) (s1 s2 : SortStateV)
      (m1 m2 : Nat → Option SortableMetadata) (src1 src2 : List Nat),
      resolveSortSuccess (startSort (startSort st).2).2 (startSort st).1 s1 m1 src1 =
          (startSort (startSort st).2).2 ∧
      resolveSortSuccess
          (resolveSortSuccess (startSort (startSort st).2).2
            (startSort (startSort st).2).1 s2 m2 src2)
          (startSort st).1 s1 m1 src1 =
        resolveSortSuccess (startSort (startSort st).2).2
          (startSort (startSort st).2).1 s2 m2 src2 ∧
      (resolveSortSuccess (startSort (startSort st).2).2
          (startSort (startSort st).2).1 s2 m2 src2).displayed =
        runSortOrder s2 m2 src2 ∧
      (∀ (st' : SortEngineState) (r : Nat), st'.token ≠ r →
        resolveSortSuccess st' r s1 m1 src1 = st') := by
  intro st s1 s2 m1 m2 src1 src2
  refine ⟨?_, ?_, ?_, ?_⟩
  · exact resolveSortSuccess_stale _ _ _ _ _ (by simp [startSort])
  · exact resolveSortSuccess_stale _ _ _ _ _
      (by rw [resolveSortSuccess_token]; simp [startSort])
  · rw [resolveSortSuccess, if_pos (by simp [startSort])]
  · intro st' r h
    exact resolveSortSuccess_stale _ _ _ _ _ h

/-- Witness for C1 at concrete inputs: a resolution with a stale token
leaves the state unchanged. -/
theorem c1_sort_cancellation_witness :
    resolveSortSuccess ⟨5, [0]⟩ 3 ⟨.size, .asc⟩ (fun _ => none) [1] = ⟨5, [0]⟩ :=
  (c1_sort_cancellation ⟨0, []⟩ ⟨.size, .asc⟩ ⟨.size, .asc⟩ (fun _ => none)
    (fun _ => none) [1] [2]).2.2.2 ⟨5, [0]⟩ 3 (by decide)

/-- C8: Sort fallback on fetch failure. The failed attempt commits the
unsorted source sequence exactly when its token is still current; a
superseded failed attempt changes nothing. -/
theorem c8_sort_fallback :
    ∀ (st : SortEngineState) (requestId : Nat) (source : List Nat),
      (st.token = requestId →
        resolveSortFailure st requestId source = { st with displayed := source }) ∧
      (st.token ≠ requestId → resolveSortFailure st requestId source = st) := by
  intro st r src
  constructor <;> intro h <;> simp [resolveSortFailure, h]

/-- Witness for C8 at concrete inputs: a current failed attempt commits the
source sequence; a superseded one changes nothing. -/
theorem c8_sort_fallback_witness :
    resolveSortFailure ⟨2, [0]⟩ 2 [9] = ⟨2, [9]⟩ ∧
      resolveSortFailure ⟨2, [0]⟩ 1 [9] = ⟨2, [0]⟩ :=
  ⟨(c8_sort_fallback ⟨2, [0]⟩ 2 [9]).1 rfl,
    (c8_sort_fallback ⟨2, [0]⟩ 1 [9]).2 (by decide)⟩

/-- C9: SortState toggle lifecycle. With sorting enabled, toggling the key
held in the sort state steps asc to desc, desc to null, and null to asc
(the three-toggle cycle), and toggling a key different from the current one
resets to that key ascending. -/
theorem c9_toggle_lifecycle :
    ∀ (k k2 : SortKey) (d : SortDir),
      handleSortToggle true (some ⟨k, .asc⟩) k = some ⟨k, .desc⟩ ∧
      handleSortToggle true (some ⟨k, .desc⟩) k = none ∧
      handleSortToggle true none k = some ⟨k, .asc⟩ ∧
      (k2 ≠ k → handleSortToggle true (some ⟨k, d⟩) k2 = some ⟨k2, .asc⟩) := by
  intro k k2 d
  refine ⟨by simp [handleSortToggle], by simp [handleSortToggle], rfl, fun h => ?_⟩
  rw [handleSortToggle]
  simp only [Bool.not_true, Bool.false_eq_true, if_false]
  rw [if_pos (by simpa using h.symm)]

/-- Witness for C9 at concrete inputs: toggling a different key resets to
ascending on that key. -/
theorem c9_toggle_lifecycle_witness :
    handleSortToggle true (some ⟨.size, .desc⟩) .mtime = some ⟨.mtime, .asc⟩ :=
  (c9_toggle_lifecycle .size .mtime .desc).2.2.2 (by decide)

set_option maxRecDepth 8000 in
/-- Counterexample to C3 as stated: after a result delivery of 1500 rows to
a screen whose stored sort state is non-null, the sort controls are
disabled but the stored SortState is not forced to null — no code path
writes null into it on a result-count change. -/
theorem c3_counterexample :
    canSortApp (onResultsChange ⟨[0], some ⟨.size, .asc⟩, [0]⟩
        (List.replicate 1500 0)) = false ∧
      (onResultsChange ⟨[0], some ⟨.size, .asc⟩, [0]⟩
        (List.replicate 1500 0)).sortState ≠ none := by
  decide

/-- C3 amended: whenever the result count exceeds the threshold, the sort
controls report disabled, toggling any sort key leaves the stored sort
state unchanged, and the displayed sequence is the raw result sequence (the
sort state is ignored rather than reset to null). -/
theorem c3_sort_disabled (st : AppSortView) (k : SortKey)
    (h : SORTABLE_RESULT_THRESHOLD < totalResults st) :
    canSortApp st = false ∧
      handleSortToggle (canSortApp st) st.sortState k = st.sortState ∧
      displayedResults st = st.results := by
  have hc : canSortApp st = false := by
    simp only [canSortApp, decide_eq_false_iff_not, not_le]
    exact h
  refine ⟨hc, ?_, ?_⟩
  · simp [handleSortToggle, hc]
  · simp [displayedResults, shouldUseSortedResults, hc]

set_option maxRecDepth 8000 in
/-- Witness for C3 amended at the concrete scenario C state: 1500 results
against the threshold of 1000. -/
theorem c3_sort_disabled_witness :
    canSortApp (onResultsChange ⟨[0], some ⟨.size, .asc⟩, [0]⟩
        (List.replicate 1500 0)) = false ∧
      handleSortToggle
          (canSortApp (onResultsChange ⟨[0], some ⟨.size, .asc⟩, [0]⟩
            (List.replicate 1500 0)))
          (onResultsChange ⟨[0], some ⟨.size, .asc⟩, [0]⟩
            (List.replicate 1500 0)).sortState .size =
        (onResultsChange ⟨[0], some ⟨.size, .asc⟩, [0]⟩
          (List.replicate 1500 0)).sortState ∧
      displayedResults (onResultsChange ⟨[0], some ⟨.size, .asc⟩, [0]⟩
          (List.replicate 1500 0)) =
        (onResultsChange ⟨[0], some ⟨.size, .asc⟩, [0]⟩
          (List.replicate 1500 0)).results :=
  c3_sort_disabled _ .size (by decide)

theorem maxScrollTop_nonneg (rowCount : Nat) (rowHeight vh : ℚ) :
    0 ≤ maxScrollTop rowCount rowHeight vh :=
  le_max_left 0 _

theorem updateScroll_bounds (mst x : ℚ) (h : 0 ≤ mst) :
    0 ≤ updateScroll mst x ∧ updateScroll mst x ≤ mst :=
  ⟨le_max_left 0 _, max_le h (min_le_right x mst)⟩

/-- C10: Every scroll-offset mutation — wheel input, thumb drag, track
click, scroll-to-top and scroll-to-index — passes through the clamping
update, so the stored offset always lands in
[0, max(0, rowCount * rowHeight - viewportHeight)]. -/
theorem c10_scroll_clamped :
    ∀ (rowCount : Nat) (rowHeight vh current deltaY trackHeight thumbHeight
        mousePos clickY : ℚ) (index : Nat) (align : ScrollAlign),
      scrollInBounds rowCount rowHeight vh
        (wheelScroll (maxScrollTop rowCount rowHeight vh) current deltaY) ∧
      scrollInBounds rowCount rowHeight vh
        (thumbDragScroll (maxScrollTop rowCount rowHeight vh) trackHeight thumbHeight
          mousePos) ∧
      scrollInBounds rowCount rowHeight vh
        (trackClickScroll (maxScrollTop rowCount rowHeight vh) trackHeight clickY) ∧
      scrollInBounds rowCount rowHeight vh
        (scrollToTopScroll (maxScrollTop rowCount rowHeight vh)) ∧
      (index < rowCount →
        scrollInBounds rowCount rowHeight vh
          (scrollToIndex rowCount rowHeight vh current index align)) := by
  intro rc rh vh current deltaY trackH thumbH mousePos clickY index align
  have hm := maxScrollTop_nonneg rc rh vh
  refine ⟨updateScroll_bounds _ _ hm, updateScroll_bounds _ _ hm,
    updateScroll_bounds _ _ hm, updateScroll_bounds _ _ hm, fun h => ?_⟩
  rw [scrollToIndex, if_neg (not_le.mpr h)]
  cases align <;> exact updateScroll_bounds _ _ hm

/-- Witness for C10 at concrete inputs: scroll-to-index on a valid index
lands in bounds. -/
theorem c10_scroll_clamped_witness :
    scrollInBounds 10 2 5 (scrollToIndex 10 2 5 0 3 .alignStart) :=
  (c10_scroll_clamped 10 2 5 0 0 0 0 0 0 3 .alignStart).2.2.2.2 (by decide)

theorem computeRange_facts (rc : Nat) (rh so vh : ℚ) (hrh : 0 < rh) (hrc : 1 ≤ rc)
    (hvh : 0 < vh) (hso : 0 ≤ so) (hle : so ≤ maxScrollTop rc rh vh) :
    0 ≤ ⌊so / rh⌋ ∧ 1 ≤ ⌈vh / rh⌉ ∧ ⌊so / rh⌋ ≤ (rc : Int) - 1 := by
  have hf0 : 0 ≤ ⌊so / rh⌋ := Int.floor_nonneg.mpr (div_nonneg hso hrh.le)
  have hc1 : 1 ≤ ⌈vh / rh⌉ := Int.ceil_pos.mpr (div_pos hvh hrh)
  refine ⟨hf0, hc1, ?_⟩
  rcases le_or_lt ((rc : ℚ) * rh - vh) 0 with h0 | h0
  · have hmst : maxScrollTop rc rh vh = 0 := max_eq_left h0
    have hso0 : so = 0 := le_antisymm (hmst ▸ hle) hso
    subst hso0
    rw [zero_div, Int.floor_zero]
    omega
  · have hle' : so ≤ (rc : ℚ) * rh - vh := by
      rw [maxScrollTop, max_eq_right h0.le] at hle
      exact hle
    have hdiv : so / rh ≤ ((rc : ℚ) * rh - vh) / rh :=
      (div_le_div_iff_of_pos_right hrh).mpr hle'
    have heq : ((rc : ℚ) * rh - vh) / rh = ((rc : Int) : ℚ) + -(vh / rh) := by
      rw [sub_div, mul_div_cancel_right₀ _ hrh.ne']
      push_cast
      ring
    have hfloor : ⌊so / rh⌋ ≤ ⌊((rc : ℚ) * rh - vh) / rh⌋ := Int.floor_le_floor hdiv
    rw [heq, Int.floor_int_add, Int.floor_neg] at hfloor
    omega

/-- Counterexample to C4 as stated: for scrollOffset 48000 (beyond the
maximal scroll offset) with rowHeight 24, viewportHeight 240, overscan 5,
rowCount 1000, the code computes start 1995 while the claimed clamp formula
gives 999 — the code does not clamp start from above. -/
theorem c4_counterexample :
    (computeRange 1000 24 5 48000 240).start = 1995 ∧
      (specRange 1000 24 5 48000 240).start = 999 := by
  unfold computeRange specRange specClamp
  norm_num

/-- C4 amended: on the clamped scroll domain actually maintained by
`updateScrollAndRange` (scrollOffset between 0 and
max(0, rowCount * rowHeight - viewportHeight)), with at least one row, a
positive viewport and a positive row height, the computed range equals the
clamp formulas of the contract; and concrete scenario A evaluates to the
range 0 to 14. Outside that domain the upper clamp on start is absent from
the code. -/
theorem c4_range_contract :
    (∀ (rc overscan : Nat) (rh so vh : ℚ), 0 < rh → 1 ≤ rc → 0 < vh → 0 ≤ so →
      so ≤ maxScrollTop rc rh vh →
      computeRange rc rh overscan so vh = specRange rc rh overscan so vh) ∧
    computeRange 1000 24 5 0 240 = ⟨0, 14⟩ := by
  constructor
  · intro rc o rh so vh hrh hrc hvh hso hle
    obtain ⟨hf0, hc1, hfle⟩ := computeRange_facts rc rh so vh hrh hrc hvh hso hle
    rw [computeRange, if_neg (by push_neg; exact ⟨by omega, hvh.ne'⟩), specRange,
      specClamp, specClamp]
    simp only [VisibleRange.mk.injEq]
    constructor
    · rw [min_eq_left (by omega)]
    · rw [min_comm, max_eq_right (le_min (by omega) (by omega))]
  · unfold computeRange
    norm_num

/-- Witness for C4 amended at the concrete scenario A inputs. -/
theorem c4_range_contract_witness :
    computeRange 1000 24 5 0 240 = specRange 1000 24 5 0 240 :=
  c4_range_contract.1 1000 5 24 0 240 (by norm_num) (by norm_num) (by norm_num)
    le_rfl (maxScrollTop_nonneg 1000 24 240)

/-- Counterexample to C5 as stated: with rowCount 1, rowHeight 1,
viewportHeight 1, overscan 0 and scrollOffset 5 (beyond the maximal scroll
offset) the computed range is start 5, end 0 — the empty sentinel
(end < start) occurs although rowCount and viewportHeight are nonzero. -/
theorem c5_counterexample :
    computeRange 1 1 0 5 1 = ⟨5, 0⟩ ∧
      (computeRange 1 1 0 5 1).«end» < (computeRange 1 1 0 5 1).start := by
  constructor <;> unfold computeRange <;> norm_num

/-- C5 amended: on the clamped scroll domain (scrollOffset between 0 and
max(0, rowCount * rowHeight - viewportHeight)), the computed range is the
empty sentinel (end < start) exactly when rowCount = 0 or
viewportHeight = 0, and otherwise satisfies
0 ≤ start ≤ end ≤ rowCount - 1. For over-scrolled offsets outside that
domain the sentinel can also occur with nonzero row count and viewport. -/
theorem c5_range_bounds (rc overscan : Nat) (rh so vh : ℚ) (hrh : 0 < rh)
    (hvh : 0 ≤ vh) (hso : 0 ≤ so) (hle : so ≤ maxScrollTop rc rh vh) :
    ((computeRange rc rh overscan so vh).«end» <
        (computeRange rc rh overscan so vh).start ↔ (rc = 0 ∨ vh = 0)) ∧
    (rc ≠ 0 → vh ≠ 0 →
      0 ≤ (computeRange rc rh overscan so vh).start ∧
      (computeRange rc rh overscan so vh).start ≤
        (computeRange rc rh overscan so vh).«end» ∧
      (computeRange rc rh overscan so vh).«end» ≤ (rc : Int) - 1) := by
  rcases Decidable.em (rc = 0 ∨ vh = 0) with hdeg | hdeg
  · rw [computeRange, if_pos hdeg]
    refine ⟨⟨fun _ => hdeg, fun _ => by norm_num⟩, fun h1 h2 => ?_⟩
    rcases hdeg with h | h
    · exact absurd h h1
    · exact absurd h h2
  · push_neg at hdeg
    obtain ⟨hrc0, hvh0⟩ := hdeg
    have hrc : 1 ≤ rc := Nat.one_le_iff_ne_zero.mpr hrc0
    have hvhpos : 0 < vh := lt_of_le_of_ne hvh (Ne.symm hvh0)
    obtain ⟨hf0, hc1, hfle⟩ := computeRange_facts rc rh so vh hrh hrc hvhpos hso hle
    rw [computeRange, if_neg (by push_neg; exact ⟨hrc0, hvh0⟩)]
    have hbounds : (0 : Int) ≤ max 0 (⌊so / rh⌋ - overscan) ∧
        max 0 (⌊so / rh⌋ - overscan) ≤
          min ((rc : Int) - 1) (⌊so / rh⌋ + ⌈vh / rh⌉ - 1 + overscan) ∧
        min ((rc : Int) - 1) (⌊so / rh⌋ + ⌈vh / rh⌉ - 1 + overscan) ≤ (rc : Int) - 1 := by
      refine ⟨le_max_left 0 _, ?_, min_le_left _ _⟩
      simp only [max_def, min_def]
      split_ifs <;> omega
    exact ⟨⟨fun h => absurd hbounds.2.1 (not_le.mpr h), fun h => absurd h (by
        push_neg; exact ⟨hrc0, hvh0⟩)⟩,
      fun _ _ => hbounds⟩

/-- Witness for C5 amended at the concrete scenario A inputs: the range is
nonempty and within bounds. -/
theorem c5_range_bounds_witness :
    (0 : Int) ≤ (computeRange 1000 24 5 0 240).start ∧
      (computeRange 1000 24 5 0 240).start ≤ (computeRange 1000 24 5 0 240).«end» ∧
      (computeRange 1000 24 5 0 240).«end» ≤ (1000 : Int) - 1 :=
  (c5_range_bounds 1000 5 24 0 240 (by norm_num) (by norm_num) le_rfl
    (maxScrollTop_nonneg 1000 24 240)).2 (by norm_num) (by norm_num)

theorem contains_false_iff (l : List Nat) (i : Nat) : l.contains i = false ↔ i ∉ l := by
  simp [List.contains]

theorem mem_missingIndices {μ : Type} (s : LoadState μ) (a b i : Nat)
    (h : i ∈ missingIndices s a b) :
    (s.cache i).isNone ∧ i ∉ s.loading := by
  simp only [missingIndices, List.mem_filter, Bool.and_eq_true, Bool.not_eq_true'] at h
  exact ⟨h.2.1, (contains_false_iff _ _).mp h.2.2⟩

theorem ensureStart_batch {μ : Type} (rc : Nat) (s : LoadState μ) (a b i : Nat)
    (h : i ∈ (ensureStart rc s a b).1) :
    (s.cache i).isNone ∧ i ∉ s.loading ∧ i ∈ (ensureStart rc s a b).2.loading := by
  by_cases hg : rc = 0 ∨ b < a
  · rw [ensureStart, if_pos hg] at h
    cases h
  · rw [ensureStart, if_neg hg] at h ⊢
    obtain ⟨h1, h2⟩ := mem_missingIndices s a b i h
    exact ⟨h1, h2, List.mem_append_right _ h⟩

theorem writeBatch_isSome_of_isSome {μ : Type} (cache : Nat → Option (Option μ))
    (batch : List Nat) (fetched : List μ) (i : Nat) (h : (cache i).isSome) :
    (writeBatch cache batch fetched i).isSome := by
  induction batch generalizing cache fetched with
  | nil => exact h
  | cons j rest ih =>
    rw [writeBatch]
    apply ih
    by_cases hj : i = j
    · subst hj
      simp [Function.update_same]
    · rwa [Function.update_noteq hj]

theorem writeBatch_isSome_of_mem {μ : Type} (cache : Nat → Option (Option μ))
    (batch : List Nat) (fetched : List μ) (i : Nat) (h : i ∈ batch) :
    (writeBatch cache batch fetched i).isSome := by
  induction batch generalizing cache fetched with
  | nil => cases h
  | cons j rest ih =>
    rw [writeBatch]
    rcases List.mem_cons.mp h with rfl | hr
    · apply writeBatch_isSome_of_isSome
      simp [Function.update_same]
    · exact ih _ _ hr

theorem writeBatch_not_mem {μ : Type} (cache : Nat → Option (Option μ))
    (batch : List Nat) (fetched : List μ) (i : Nat) (h : i ∉ batch) :
    writeBatch cache batch fetched i = cache i := by
  induction batch generalizing cache fetched with
  | nil => rfl
  | cons j rest ih =>
    have hj : i ≠ j := fun e => h (e ▸ List.mem_cons_self j rest)
    rw [writeBatch, ih _ _ (fun hr => h (List.mem_cons_of_mem j hr)),
      Function.update_noteq hj]

theorem writeBatch_get {μ : Type} (cache : Nat → Option (Option μ))
    (batch : List Nat) (fetched : List μ) (pos : Nat) (hnd : batch.Nodup)
    (h1 : pos < batch.length) (h2 : pos < fetched.length) :
    writeBatch cache batch fetched (batch.get ⟨pos, h1⟩) =
      some (some (fetched.get ⟨pos, h2⟩)) := by
  induction batch generalizing cache fetched pos with
  | nil => simp at h1
  | cons j rest ih =>
    obtain ⟨hj, hr⟩ := List.nodup_cons.mp hnd
    cases pos with
    | zero =>
      rw [writeBatch]
      have e0 : (j :: rest).get ⟨0, h1⟩ = j := rfl
      rw [e0, writeBatch_not_mem _ _ _ _ hj, Function.update_same]
      cases fetched with
      | nil => simp at h2
      | cons v vs => rfl
    | succ p =>
      rw [writeBatch]
      have e1 : (j :: rest).get ⟨p + 1, h1⟩ = rest.get ⟨p, by simpa using h1⟩ := rfl
      rw [e1]
      cases fetched with
      | nil => simp at h2
      | cons v vs =>
        exact ih _ vs p hr (by simpa using h1) (by simpa using h2)

theorem clearLoading_not_mem_batch (loading batch : List Nat) (i : Nat) (h : i ∈ batch) :
    i ∉ clearLoading loading batch := by
  intro hmem
  simp only [clearLoading, List.mem_filter, Bool.not_eq_true'] at hmem
  exact (contains_false_iff _ _).mp hmem.2 h

theorem clearLoading_mem (loading batch : List Nat) (i : Nat) (hi : i ∈ loading)
    (hb : i ∉ batch) : i ∈ clearLoading loading batch := by
  simp only [clearLoading, List.mem_filter, Bool.not_eq_true']
  exact ⟨hi, (contains_false_iff _ _).mpr hb⟩

theorem batchSuccess_presence {μ : Type} (s : LoadState μ) (batch : List Nat)
    (fetched : List μ) (i : Nat) (h : (s.cache i).isSome ∨ i ∈ s.loading) :
    ((batchSuccess s batch fetched).cache i).isSome ∨
      i ∈ (batchSuccess s batch fetched).loading := by
  rcases h with hc | hl
  · exact Or.inl (writeBatch_isSome_of_isSome _ _ _ _ hc)
  · by_cases hb : i ∈ batch
    · exact Or.inl (writeBatch_isSome_of_mem _ _ _ _ hb)
    · exact Or.inr (clearLoading_mem _ _ _ hl hb)

theorem ensureStart_presence {μ : Type} (rc : Nat) (s : LoadState μ) (a b i : Nat)
    (h : (s.cache i).isSome ∨ i ∈ s.loading) :
    ((ensureStart rc s a b).2.cache i).isSome ∨ i ∈ (ensureStart rc s a b).2.loading := by
  rw [ensureStart]
  split
  · exact h
  · rcases h with hc | hl
    · exact Or.inl hc
    · exact Or.inr (List.mem_append_left _ hl)

theorem ensureStart_batch_avoid {μ : Type} (rc : Nat) (s : LoadState μ) (a b i : Nat)
    (hp : (s.cache i).isSome ∨ i ∈ s.loading) : i ∉ (ensureStart rc s a b).1 := by
  intro hmem
  obtain ⟨hnone, hnl, _⟩ := ensureStart_batch rc s a b i hmem
  rcases hp with hc | hl
  · rw [Option.isNone_iff_eq_none.mp hnone] at hc
    cases hc
  · exact hnl hl

theorem runEvents_avoid {μ : Type} (rc : Nat) (es : List (LoadEvent μ))
    (s : LoadState μ) (i : Nat) (hp : (s.cache i).isSome ∨ i ∈ s.loading)
    (hnf : ∀ e ∈ es, e.isFail = false) :
    ∀ batch ∈ (runEvents rc s es).2, i ∉ batch := by
  induction es generalizing s with
  | nil =>
    intro batch hb
    simp [runEvents] at hb
  | cons e rest ih =>
    have hnf' : ∀ e ∈ rest, LoadEvent.isFail e = false :=
      fun e he => hnf e (List.mem_cons_of_mem _ he)
    cases e with
    | ensure a b =>
      intro batch hmem
      simp only [runEvents] at hmem
      rcases List.mem_cons.mp hmem with rfl | hr
      · exact ensureStart_batch_avoid rc s a b i hp
      · exact ih (ensureStart rc s a b).2 (ensureStart_presence rc s a b i hp) hnf'
          batch hr
    | complete batch0 fetched =>
      intro batch hmem
      simp only [runEvents] at hmem
      exact ih _ (batchSuccess_presence s batch0 fetched i hp) hnf' batch hmem
    | fail batch0 =>
      have := hnf (.fail batch0) (List.mem_cons_self _ _)
      simp [LoadEvent.isFail] at this

theorem runEvents_pairwise {μ : Type} (rc : Nat) (es : List (LoadEvent μ))
    (s : LoadState μ) (hnf : ∀ e ∈ es, e.isFail = false) :
    List.Pairwise (fun b1 b2 => ∀ i ∈ b1, i ∉ b2) (runEvents rc s es).2 := by
  induction es generalizing s with
  | nil => simp [runEvents]
  | cons e rest ih =>
    have hnf' : ∀ e ∈ rest, LoadEvent.isFail e = false :=
      fun e he => hnf e (List.mem_cons_of_mem _ he)
    cases e with
    | ensure a b =>
      simp only [runEvents]
      refine List.Pairwise.cons ?_ (ih _ hnf')
      intro b2 hb2 i hi
      exact runEvents_avoid rc rest _ i
        (Or.inr (ensureStart_batch rc s a b i hi).2.2) hnf' b2 hb2
    | complete batch0 fetched =>
      simp only [runEvents]
      exact ih _ hnf'
    | fail batch0 =>
      have := hnf (.fail batch0) (List.mem_cons_self _ _)
      simp [LoadEvent.isFail] at this

/-- C6: Batch-load idempotence. Over any event history of
`ensureRangeLoaded` calls and successful batch completions (no failed batch
and no cache reset), the issued fetch request lists are pairwise disjoint —
at most one fetch per index — and an index cached or in flight at the start
is never included in any later fetch request. -/
theorem c6_batch_load_idempotent :
    ∀ (rowCount : Nat) (s : LoadState Nat) (events : List (LoadEvent Nat)),
      (∀ e ∈ events, e.isFail = false) →
      List.Pairwise (fun b1 b2 => ∀ i ∈ b1, i ∉ b2) (runEvents rowCount s events).2 ∧
      (∀ i : Nat, ((s.cache i).isSome ∨ i ∈ s.loading) →
        ∀ batch ∈ (runEvents rowCount s events).2, i ∉ batch) := by
  intro rc s events hnf
  exact ⟨runEvents_pairwise rc events s hnf,
    fun i hp => runEvents_avoid rc events s i hp hnf⟩

/-- Witness for C6 at concrete inputs: two overlapping
`ensureRangeLoaded` calls with the first batch still in flight issue
disjoint fetch lists. -/
theorem c6_batch_load_idempotent_witness :
    List.Pairwise (fun b1 b2 => ∀ i ∈ b1, i ∉ b2)
      (runEvents 10 ⟨fun i => if i = 5 then some (some 0) else none, [7]⟩
        [.ensure 4 9, .ensure 4 9]).2 :=
  (c6_batch_load_idempotent 10 ⟨fun i => if i = 5 then some (some 0) else none, [7]⟩
    [.ensure 4 9, .ensure 4 9] (by decide)).1

/-- C7: Batch fetch merge and failure atomicity. On a successful fetch the
record at each position of the response is written into the cache keyed by
the index at the same position of the request list; on a failed fetch every
index of the batch leaves the in-flight set and the cache is unchanged; and
the request list built from a range is duplicate-free. -/
theorem c7_batch_merge :
    ∀ (s : LoadState Nat) (a b : Nat) (batch fetched : List Nat) (pos : Nat),
      batch.Nodup → (h1 : pos < batch.length) → (h2 : pos < fetched.length) →
      (batchSuccess s batch fetched).cache (batch.get ⟨pos, h1⟩) =
          some (some (fetched.get ⟨pos, h2⟩)) ∧
      (batchFailure s batch).cache = s.cache ∧
      (∀ i ∈ batch, i ∉ (batchFailure s batch).loading) ∧
      (missingIndices s a b).Nodup := by
  intro s a b batch fetched pos hnd h1 h2
  refine ⟨writeBatch_get s.cache batch fetched pos hnd h1 h2, rfl, ?_, ?_⟩
  · intro i hi
    exact clearLoading_not_mem_batch s.loading batch i hi
  · exact List.Nodup.filter _ (List.nodup_range' a (b + 1 - a))

/-- Witness for C7 at concrete inputs: the response value at position 1 is
cached under the request index at position 1, even though the request list
is not sorted. -/
theorem c7_batch_merge_witness :
    (batchSuccess ⟨fun _ => none, ([] : List Nat)⟩ [3, 1] [10, 20]).cache
        ([3, 1].get ⟨1, by decide⟩) =
      some (some ([10, 20].get ⟨1, by decide⟩)) :=
  (c7_batch_merge ⟨fun _ => none, []⟩ 0 0 [3, 1] [10, 20] 1 (by decide) (by decide)
    (by decide)).1

end Cardinal
